import Mathlib

/-!
Shallow embedding of the water-balloon particle simulation (src/main.rs).

The source's `f32` arithmetic is modelled exactly over `ℝ`.  The ambient
screen size (`screen_width()` / `screen_height()`) is passed as explicit
parameters, and the render loop's per-frame state is made an explicit
`SimState` transformed by `tick`.
-/

namespace WaterBalloon

open scoped Classical

/-- 2D vector, as macroquad's `Vec2`. -/
abbrev Vec2 := ℝ × ℝ

/-- `Vec2::dot`. -/
noncomputable def dot (a b : Vec2) : ℝ := a.1 * b.1 + a.2 * b.2

/-- `Vec2::length`: Euclidean norm. -/
noncomputable def vlen (v : Vec2) : ℝ := Real.sqrt (v.1 ^ 2 + v.2 ^ 2)

/-- `Vec2::distance`. -/
noncomputable def vdist (a b : Vec2) : ℝ := vlen (a - b)

/-- `Vec2::normalize`: `v * (1 / v.length())`.  (For `v = 0` the source's
`f32` produces NaN; in the exact model `1 / 0 = 0`, so `normalize 0 = 0`.) -/
noncomputable def normalize (v : Vec2) : Vec2 := (1 / vlen v) • v

-- ==================== constants ==================== --

noncomputable def PARTICLE_RADIUS : ℝ := 3
def PARTICLE_COUNT : ℕ := 1000
noncomputable def BALLOON_RADIUS : ℝ := 60
noncomputable def REST_LENGTH : ℝ := 6
noncomputable def STIFFNESS_AFTER : ℝ := 300
noncomputable def DAMPING_AFTER : ℝ := 2
noncomputable def GRAVITY : Vec2 := (0, 500)
noncomputable def REBOUND : ℝ := -0.3

-- ==================== structures ==================== --

/-- Water particle: position, velocity, accumulated force. -/
structure Particle where
  position : Vec2
  velocity : Vec2
  force : Vec2

/-- Bullet: position, velocity, radius, liveness flag. -/
structure Bullet where
  position : Vec2
  velocity : Vec2
  radius : ℝ
  active : Bool

-- ==================== Particle impl ==================== --

/-- `Particle::new`. -/
noncomputable def Particle.new (pos : Vec2) : Particle :=
  { position := pos, velocity := 0, force := 0 }

/-- `Particle::apply_force`. -/
noncomputable def Particle.apply_force (p : Particle) (f : Vec2) : Particle :=
  { p with force := p.force + f }

/-- `Particle::reset_force`. -/
noncomputable def Particle.reset_force (p : Particle) : Particle :=
  { p with force := 0 }

/-- `Particle::apply_gravity`. -/
noncomputable def Particle.apply_gravity (p : Particle) : Particle :=
  p.apply_force GRAVITY

/-- `Particle::update` (semi-implicit Euler, then ground contact).
`H` is the ambient `screen_height()`. -/
noncomputable def Particle.update (p : Particle) (dt H : ℝ) : Particle :=
  let v := p.velocity + dt • p.force
  let pos := p.position + dt • v
  if pos.2 + PARTICLE_RADIUS > H then
    { position := (pos.1, H - PARTICLE_RADIUS)
      velocity := (v.1, v.2 * REBOUND)
      force := 0 }
  else
    { position := pos, velocity := v, force := 0 }

-- ==================== Bullet impl ==================== --

/-- `Bullet::new`: direction is the normalized vector from `start` to
`target`, speed 800. -/
noncomputable def Bullet.new (start target : Vec2) : Bullet :=
  let dir := normalize (target - start)
  { position := start, velocity := (800 : ℝ) • dir, radius := 5, active := true }

/-- `Bullet::update`: integrate, then deactivate once outside the
`W × H` viewport. -/
noncomputable def Bullet.update (b : Bullet) (dt W H : ℝ) : Bullet :=
  let pos := b.position + dt • b.velocity
  { b with
    position := pos
    active :=
      if pos.1 < 0 ∨ pos.1 > W ∨ pos.2 < 0 ∨ pos.2 > H then false else b.active }

/-- `Bullet::collides_with`: strict comparison of center distance with the
radius sum. -/
noncomputable def Bullet.collides_with (b : Bullet) (p : Particle) : Prop :=
  vdist b.position p.position < b.radius + PARTICLE_RADIUS

-- ==================== spring forces ==================== --

/-- The cutoff/floor guard of `apply_spring_forces`:
`dist < REST_LENGTH * 2.0 && dist > 0.01`. -/
noncomputable def inBand (a b : Particle) : Prop :=
  vlen (b.position - a.position) < REST_LENGTH * 2 ∧
    vlen (b.position - a.position) > 0.01

/-- `dir` in the spring loop: normalized separation from `a` (index i) to
`b` (index j). -/
noncomputable def springDir (a b : Particle) : Vec2 :=
  normalize (b.position - a.position)

/-- `f_spring = dir * (stiffness * (dist - REST_LENGTH))`. -/
noncomputable def f_spring (a b : Particle) : Vec2 :=
  (STIFFNESS_AFTER * (vlen (b.position - a.position) - REST_LENGTH)) •
    springDir a b

/-- `f_damp = dir * (v_rel.dot(dir) * damping)` with
`v_rel = velocity[j] - velocity[i]`. -/
noncomputable def f_damp (a b : Particle) : Vec2 :=
  (dot (b.velocity - a.velocity) (springDir a b) * DAMPING_AFTER) •
    springDir a b

/-- `force = f_spring + f_damp` of the spring loop body. -/
noncomputable def pairForce (a b : Particle) : Vec2 :=
  f_spring a b + f_damp a b

/-- One iteration of the inner loop of `apply_spring_forces` for indices
`(i, j)`: when the pair is in the interaction band, add `force` to
particle `i` and `-force` to particle `j`. -/
noncomputable def springStep (ps : List Particle) (i j : ℕ) : List Particle :=
  match ps[i]?, ps[j]? with
  | some a, some b =>
      if inBand a b then
        (ps.set i (a.apply_force (pairForce a b))).set j
          (b.apply_force (-pairForce a b))
      else ps
  | _, _ => ps

/-- The index pairs `(i, j)` with `i < j < n`, in the loop order of the
source (`i` outer ascending, `j` from `i+1`). -/
def pairIndices (n : ℕ) : List (ℕ × ℕ) :=
  (List.range n).flatMap fun i =>
    (List.range' (i + 1) (n - (i + 1))).map fun j => (i, j)

/-- `apply_spring_forces`. -/
noncomputable def apply_spring_forces (ps : List Particle) : List Particle :=
  (pairIndices ps.length).foldl (fun acc ij => springStep acc ij.1 ij.2) ps

-- ==================== particle generation ==================== --

/-- `points_in_layer`: `((2π·r) / (PARTICLE_RADIUS * 2.5)).max(6.0) as usize`
(the value is ≥ 6, so the `usize` cast is the floor). -/
noncomputable def pointsInLayer (layer_radius : ℝ) : ℕ :=
  ⌊max ((2 * Real.pi * layer_radius) / (PARTICLE_RADIUS * 2.5)) 6⌋₊

/-- The particle pushed for loop index `i` of a ring:
`center + (r·cos θ, r·sin θ)` with `θ = i / pts * 2π`. -/
noncomputable def ringParticle (center : Vec2) (layer_radius : ℝ) (pts i : ℕ) :
    Particle :=
  let theta := (i : ℝ) / (pts : ℝ) * 2 * Real.pi
  Particle.new
    (center + (layer_radius * Real.cos theta, layer_radius * Real.sin theta))

/-- The inner `for` loop of `generate_spherical_particles`: place the ring's
points in order, but break once the field has `count` particles (`room` is
`count - particles.len()`). -/
noncomputable def placeRing (center : Vec2) (layer_radius : ℝ) (pts room : ℕ) :
    List Particle :=
  ((List.range pts).take room).map (ringParticle center layer_radius pts)

/-- The `while` loop of `generate_spherical_particles`: while fewer than
`count` particles, place a ring at radius `r`, then step `r` by
`PARTICLE_RADIUS * 2.0` and break once `r` exceeds `radius`. -/
noncomputable def genLoop (center : Vec2) (count : ℕ) (radius : ℝ) (r : ℝ)
    (acc : List Particle) : List Particle :=
  if h : acc.length < count then
    let acc' := acc ++ placeRing center r (pointsInLayer r) (count - acc.length)
    let r' := r + PARTICLE_RADIUS * 2
    if r' > radius then acc' else genLoop center count radius r' acc'
  else acc
termination_by count - acc.length
decreasing_by
  have h6 : 6 ≤ pointsInLayer r := by
    unfold pointsInLayer
    calc (6 : ℕ) = ⌊(6 : ℝ)⌋₊ := by simp
    _ ≤ _ := Nat.floor_le_floor (le_max_right _ _)
  simp only [acc', List.length_append, placeRing, List.length_map,
    List.length_take, List.length_range]
  omega

/-- `generate_spherical_particles`. -/
noncomputable def generate_spherical_particles (center : Vec2) (count : ℕ)
    (radius : ℝ) : List Particle :=
  genLoop center count radius 0 []

-- ==================== main loop ==================== --

/-- The per-frame mutable state of `main`. -/
structure SimState where
  particles : List Particle
  bullets : List Bullet
  exploded : Bool
  initialized : Bool

/-- The per-frame external inputs of `main`: frame time, screen size, and
the click position when the left mouse button was pressed this frame. -/
structure TickInput where
  dt : ℝ
  width : ℝ
  height : ℝ
  click : Option Vec2

/-- One iteration of the bullet loop of `main`: update the bullet, then —
only while not yet exploded — test it against every particle. -/
noncomputable def bulletStep (particles : List Particle) (dt W H : ℝ)
    (acc : List Bullet × Bool) (b : Bullet) : List Bullet × Bool :=
  let b' := b.update dt W H
  let ex : Bool :=
    if acc.2 then acc.2
    else if ∃ p ∈ particles, b'.collides_with p then true else acc.2
  (acc.1 ++ [b'], ex)

/-- One pass of `main`'s render loop, as an explicit state transformer:
lazy field initialization, fire-on-click, bullet update + impact test,
post-explosion physics, and removal of dead bullets. -/
noncomputable def tick (s : SimState) (inp : TickInput) : SimState :=
  let particles₀ :=
    if s.initialized then s.particles
    else
      generate_spherical_particles (inp.width / 2, inp.height / 2.5)
        PARTICLE_COUNT BALLOON_RADIUS
  let bullets₀ :=
    match inp.click with
    | some target => s.bullets ++ [Bullet.new (inp.width / 2, inp.height) target]
    | none => s.bullets
  let bp := bullets₀.foldl (bulletStep particles₀ inp.dt inp.width inp.height)
    ([], s.exploded)
  let particles₁ :=
    if bp.2 then
      (apply_spring_forces (particles₀.map Particle.apply_gravity)).map
        fun p => p.update inp.dt inp.height
    else particles₀
  { particles := particles₁
    bullets := bp.1.filter fun b => b.active
    exploded := bp.2
    initialized := true }

-- ==================== theorems ==================== --

theorem snd_integrated (p : Particle) (dt : ℝ) :
    (p.position + dt • (p.velocity + dt • p.force)).2 =
      p.position.2 + dt * (p.velocity.2 + dt * p.force.2) := by
  simp [Prod.snd_add, Prod.smul_snd, smul_eq_mul]
  ring

/-- C3: for every particle, every `dt ≥ 0` and every pre-step state, after
`Particle.update` the particle's lower edge `y + PARTICLE_RADIUS` does not
exceed the floor line `H`; when the clamp fires (the integrated lower edge
exceeded `H`), `y` is set to `H - PARTICLE_RADIUS` and the vertical
velocity is multiplied by `REBOUND`, which is negative with magnitude
less than one. -/
theorem c3_ground_clamp (p : Particle) (dt H : ℝ) (hdt : 0 ≤ dt) :
    ((p.update dt H).position.2 + PARTICLE_RADIUS ≤ H)
    ∧ (p.position.2 + dt * (p.velocity.2 + dt * p.force.2) + PARTICLE_RADIUS > H →
        (p.update dt H).position.2 = H - PARTICLE_RADIUS ∧
        (p.update dt H).velocity.2 = (p.velocity.2 + dt * p.force.2) * REBOUND)
    ∧ (REBOUND < 0 ∧ |REBOUND| < 1) := by
  have hcond : (p.position + dt • (p.velocity + dt • p.force)).2 =
      p.position.2 + dt * (p.velocity.2 + dt * p.force.2) := snd_integrated p dt
  have hv : (p.velocity + dt • p.force).2 = p.velocity.2 + dt * p.force.2 := by
    simp [Prod.snd_add, Prod.smul_snd, smul_eq_mul]
  refine ⟨?_, ?_, ?_, ?_⟩
  · simp only [Particle.update]
    split_ifs with h
    · simp
    · rw [not_lt] at h
      exact h
  · intro hover
    simp only [Particle.update]
    rw [hcond]
    rw [if_pos hover]
    exact ⟨rfl, by simp [hv]⟩
  · unfold REBOUND; norm_num
  · unfold REBOUND
    rw [abs_lt]; constructor <;> norm_num

/-- C3 witness: a particle integrated to `y = 10` against floor `H = 5` is
clamped to `y = 2` (lower edge at the floor). -/
theorem c3_witness :
    (0 : ℝ) ≤ 1 ∧
    (Particle.update { position := (0, 10), velocity := 0, force := 0 } 1
          5).position.2 + PARTICLE_RADIUS ≤ 5 :=
  ⟨by norm_num,
   (c3_ground_clamp { position := (0, 10), velocity := 0, force := 0 } 1 5
      (by norm_num)).1⟩

/-- C8: `Bullet.collides_with` holds exactly when the squared center
distance is below the squared radius sum (i.e. the Euclidean distance is
strictly below the radius sum), and it is false when the distance equals
the radius sum exactly. -/
theorem c8_hit_test_strict (b : Bullet) (p : Particle) (hr : 0 ≤ b.radius) :
    (b.collides_with p ↔
      (b.position.1 - p.position.1) ^ 2 + (b.position.2 - p.position.2) ^ 2 <
        (b.radius + PARTICLE_RADIUS) ^ 2)
    ∧ (vdist b.position p.position = b.radius + PARTICLE_RADIUS →
        ¬ b.collides_with p) := by
  have hc : 0 < b.radius + PARTICLE_RADIUS := by
    unfold PARTICLE_RADIUS; linarith
  constructor
  · unfold Bullet.collides_with vdist vlen
    rw [Real.sqrt_lt' hc]
    simp [Prod.fst_sub, Prod.snd_sub]
  · intro heq
    unfold Bullet.collides_with
    rw [heq]
    exact lt_irrefl _

/-- C8 witness: a radius-5 bullet at the origin against a particle at
`(8, 0)` — distance exactly `5 + 3` — does not collide. -/
theorem c8_witness :
    (0 : ℝ) ≤ 5 ∧
    ¬ ({ position := (0, 0), velocity := 0, radius := 5, active := true } :
        Bullet).collides_with (Particle.new (8, 0)) := by
  refine ⟨by norm_num, ?_⟩
  have hd : vdist ((0 : ℝ), (0 : ℝ)) (Particle.new (8, 0)).position =
      (5 : ℝ) + PARTICLE_RADIUS := by
    unfold vdist vlen Particle.new PARTICLE_RADIUS
    have h1 : (((0 : ℝ), (0 : ℝ)) - ((8 : ℝ), (0 : ℝ))) = ((-8 : ℝ), (0 : ℝ)) := by
      simp [Prod.ext_iff]
    rw [h1]
    rw [show ((-8 : ℝ)) ^ 2 + (0 : ℝ) ^ 2 = 8 ^ 2 by norm_num]
    rw [Real.sqrt_sq (by norm_num : (0 : ℝ) ≤ 8)]
    norm_num
  exact (c8_hit_test_strict
    { position := (0, 0), velocity := 0, radius := 5, active := true }
    (Particle.new (8, 0)) (by norm_num)).2 hd

theorem lt_length_of_getElem? {α : Type _} {l : List α} {i : ℕ} {a : α}
    (h : l[i]? = some a) : i < l.length := by
  by_contra hc
  rw [List.getElem?_eq_none (Nat.le_of_not_lt hc)] at h
  simp at h

theorem set_self {α : Type _} (l : List α) (i : ℕ) (a : α)
    (h : l[i]? = some a) : l.set i a = l := by
  apply List.ext_getElem?
  intro n
  rw [List.getElem?_set]
  split_ifs with h1 h2
  · subst h1; exact h.symm
  · subst h1; exact absurd (lt_length_of_getElem? h) h2
  · rfl

theorem apply_force_position (p : Particle) (g : Vec2) :
    (p.apply_force g).position = p.position := rfl

theorem apply_force_velocity (p : Particle) (g : Vec2) :
    (p.apply_force g).velocity = p.velocity := rfl

theorem springStep_map_eq {α : Type _} (f : Particle → α)
    (hf : ∀ p g, f (p.apply_force g) = f p) (ps : List Particle) (i j : ℕ) :
    (springStep ps i j).map f = ps.map f := by
  unfold springStep
  cases hi : ps[i]? with
  | none => rfl
  | some a =>
    cases hj : ps[j]? with
    | none => rfl
    | some b =>
      dsimp only
      split_ifs with hb
      · rw [List.map_set, List.map_set, hf, hf]
        rw [set_self (ps.map f) i (f a) (by rw [List.getElem?_map, hi]; rfl)]
        rw [set_self (ps.map f) j (f b) (by rw [List.getElem?_map, hj]; rfl)]
      · rfl

theorem foldl_springStep_map_eq {α : Type _} (f : Particle → α)
    (hf : ∀ p g, f (p.apply_force g) = f p) (l : List (ℕ × ℕ))
    (ps : List Particle) :
    (l.foldl (fun acc ij => springStep acc ij.1 ij.2) ps).map f = ps.map f := by
  induction l generalizing ps with
  | nil => rfl
  | cons ij t ih => rw [List.foldl_cons, ih, springStep_map_eq f hf]

/-- C10: `apply_spring_forces` mutates only the force accumulators — the
lists of positions and of velocities are identical before and after. -/
theorem c10_spring_frame (ps : List Particle) :
    (apply_spring_forces ps).map Particle.position = ps.map Particle.position ∧
    (apply_spring_forces ps).map Particle.velocity = ps.map Particle.velocity :=
  ⟨foldl_springStep_map_eq Particle.position apply_force_position _ ps,
   foldl_springStep_map_eq Particle.velocity apply_force_velocity _ ps⟩

/-- C4: for a pair `(i, j)` within the interaction band, the spring loop
body adds some force `F` to particle `i`'s accumulator and exactly `-F` to
particle `j`'s accumulator (Newton's third law), whatever the positions
and velocities are. -/
theorem c4_newton_third_law (ps : List Particle) (i j : ℕ) (a b : Particle)
    (hi : ps[i]? = some a) (hj : ps[j]? = some b) (hij : i ≠ j)
    (hband : inBand a b) :
    ∃ F : Vec2,
      (springStep ps i j)[i]? = some (a.apply_force F) ∧
      (springStep ps i j)[j]? = some (b.apply_force (-F)) := by
  have hilen : i < ps.length := lt_length_of_getElem? hi
  have hjlen : j < ps.length := lt_length_of_getElem? hj
  have hred : springStep ps i j =
      (ps.set i (a.apply_force (pairForce a b))).set j
        (b.apply_force (-pairForce a b)) := by
    unfold springStep
    rw [hi, hj]
    dsimp only
    rw [if_pos hband]
  refine ⟨pairForce a b, ?_, ?_⟩
  · rw [hred, List.getElem?_set_ne (Ne.symm hij),
      List.getElem?_set_self hilen]
  · rw [hred,
      List.getElem?_set_self (by rw [List.length_set]; exact hjlen)]

theorem vlen_five_zero : vlen ((5 : ℝ), (0 : ℝ)) = 5 := by
  unfold vlen
  rw [show ((5 : ℝ) ^ 2 + (0 : ℝ) ^ 2) = 5 ^ 2 by norm_num]
  exact Real.sqrt_sq (by norm_num)

theorem inBand_five : inBand (Particle.new (0, 0)) (Particle.new (5, 0)) := by
  have hsub : (Particle.new (5, 0)).position - (Particle.new (0, 0)).position =
      ((5 : ℝ), (0 : ℝ)) := by
    simp [Particle.new, Prod.ext_iff]
  unfold inBand
  rw [hsub, vlen_five_zero]
  unfold REST_LENGTH
  norm_num

/-- C4 witness: two particles 5 apart (inside the band) at indices 0 and 1
receive opposite forces. -/
theorem c4_witness :
    ([Particle.new (0, 0), Particle.new (5, 0)][0]? = some (Particle.new (0, 0)))
    ∧ ([Particle.new (0, 0), Particle.new (5, 0)][1]? = some (Particle.new (5, 0)))
    ∧ (0 : ℕ) ≠ 1
    ∧ inBand (Particle.new (0, 0)) (Particle.new (5, 0))
    ∧ ∃ F : Vec2,
        (springStep [Particle.new (0, 0), Particle.new (5, 0)] 0 1)[0]? =
          some ((Particle.new (0, 0)).apply_force F) ∧
        (springStep [Particle.new (0, 0), Particle.new (5, 0)] 0 1)[1]? =
          some ((Particle.new (5, 0)).apply_force (-F)) :=
  ⟨rfl, rfl, by norm_num, inBand_five,
   c4_newton_third_law [Particle.new (0, 0), Particle.new (5, 0)] 0 1
     (Particle.new (0, 0)) (Particle.new (5, 0)) rfl rfl (by norm_num)
     inBand_five⟩

theorem dot_smul_left (c : ℝ) (w u : Vec2) : dot (c • w) u = c * dot w u := by
  unfold dot
  simp [Prod.smul_fst, Prod.smul_snd, smul_eq_mul]
  ring

theorem dot_self_eq_vlen_sq (v : Vec2) : dot v v = vlen v ^ 2 := by
  unfold dot vlen
  rw [Real.sq_sqrt (by positivity)]
  ring

theorem dot_f_spring_delta (a b : Particle)
    (hd : 0 < vlen (b.position - a.position)) :
    dot (f_spring a b) (b.position - a.position) =
      STIFFNESS_AFTER * (vlen (b.position - a.position) - REST_LENGTH) *
        vlen (b.position - a.position) := by
  unfold f_spring springDir normalize
  rw [dot_smul_left, dot_smul_left, dot_self_eq_vlen_sq]
  field_simp
  ring

/-- C5: the spring loop applies a force exactly on the guard band
`0.01 < dist < 2·REST_LENGTH` (outside it the particle list is returned
unchanged); within the band the Hookean component on particle `i` has a
positive component along the separation toward `j` (pulling the pair
together) when the distance exceeds `REST_LENGTH` and a negative one
(pushing apart) when it is below; and at exactly `REST_LENGTH` with zero
relative velocity the pair force is zero. -/
theorem c5_spring_band (ps : List Particle) (i j : ℕ) (a b : Particle)
    (hi : ps[i]? = some a) (hj : ps[j]? = some b) :
    (¬ inBand a b → springStep ps i j = ps)
    ∧ (inBand a b →
        springStep ps i j =
          (ps.set i (a.apply_force (pairForce a b))).set j
            (b.apply_force (-pairForce a b)))
    ∧ (inBand a b → REST_LENGTH < vlen (b.position - a.position) →
        0 < dot (f_spring a b) (b.position - a.position))
    ∧ (inBand a b → vlen (b.position - a.position) < REST_LENGTH →
        dot (f_spring a b) (b.position - a.position) < 0)
    ∧ (vlen (b.position - a.position) = REST_LENGTH →
        b.velocity = a.velocity → pairForce a b = 0) := by
  refine ⟨?_, ?_, ?_, ?_, ?_⟩
  · intro hnb
    unfold springStep
    rw [hi, hj]
    dsimp only
    rw [if_neg hnb]
  · intro hband
    unfold springStep
    rw [hi, hj]
    dsimp only
    rw [if_pos hband]
  · intro hband hstretch
    have hd : 0 < vlen (b.position - a.position) :=
      lt_trans (by norm_num) hband.2
    rw [dot_f_spring_delta a b hd]
    have hk : (0 : ℝ) < STIFFNESS_AFTER := by unfold STIFFNESS_AFTER; norm_num
    have hx : 0 < vlen (b.position - a.position) - REST_LENGTH := by linarith
    positivity
  · intro hband hcompress
    have hd : 0 < vlen (b.position - a.position) :=
      lt_trans (by norm_num) hband.2
    rw [dot_f_spring_delta a b hd]
    have hk : (0 : ℝ) < STIFFNESS_AFTER := by unfold STIFFNESS_AFTER; norm_num
    have hx : vlen (b.position - a.position) - REST_LENGTH < 0 := by linarith
    exact mul_neg_of_neg_of_pos (mul_neg_of_pos_of_neg hk hx) hd
  · intro hrest hvel
    unfold pairForce f_spring f_damp
    rw [hrest, sub_self, mul_zero, zero_smul, hvel, sub_self]
    have hdz : dot 0 (springDir a b) = 0 := by
      unfold dot
      simp
    rw [hdz, zero_mul, zero_smul, add_zero]

theorem vlen_six_zero : vlen ((6 : ℝ), (0 : ℝ)) = 6 := by
  unfold vlen
  rw [show ((6 : ℝ) ^ 2 + (0 : ℝ) ^ 2) = 6 ^ 2 by norm_num]
  exact Real.sqrt_sq (by norm_num)

/-- C5 witness: two particles exactly `REST_LENGTH` apart with equal (zero)
velocities receive zero pair force. -/
theorem c5_witness :
    ([Particle.new (0, 0), Particle.new (6, 0)][0]? = some (Particle.new (0, 0)))
    ∧ ([Particle.new (0, 0), Particle.new (6, 0)][1]? = some (Particle.new (6, 0)))
    ∧ vlen ((Particle.new (6, 0)).position - (Particle.new (0, 0)).position) =
        REST_LENGTH
    ∧ pairForce (Particle.new (0, 0)) (Particle.new (6, 0)) = 0 := by
  have hsub : (Particle.new (6, 0)).position - (Particle.new (0, 0)).position =
      ((6 : ℝ), (0 : ℝ)) := by
    simp [Particle.new, Prod.ext_iff]
  have hd : vlen ((Particle.new (6, 0)).position -
      (Particle.new (0, 0)).position) = REST_LENGTH := by
    rw [hsub, vlen_six_zero]
    unfold REST_LENGTH
    norm_num
  exact ⟨rfl, rfl, hd,
    (c5_spring_band [Particle.new (0, 0), Particle.new (6, 0)] 0 1
        (Particle.new (0, 0)) (Particle.new (6, 0)) rfl rfl).2.2.2.2 hd rfl⟩

theorem bulletStep_preserves_true (particles : List Particle) (dt W H : ℝ)
    (acc : List Bullet × Bool) (b : Bullet) (h : acc.2 = true) :
    (bulletStep particles dt W H acc b).2 = true := by
  simp [bulletStep, h]

theorem foldl_bulletStep_true (particles : List Particle) (dt W H : ℝ)
    (l : List Bullet) (acc : List Bullet × Bool) (h : acc.2 = true) :
    (l.foldl (bulletStep particles dt W H) acc).2 = true := by
  induction l generalizing acc with
  | nil => exact h
  | cons b t ih =>
      rw [List.foldl_cons]
      exact ih _ (bulletStep_preserves_true particles dt W H acc b h)

theorem tick_preserves_exploded (s : SimState) (inp : TickInput)
    (h : s.exploded = true) : (tick s inp).exploded = true := by
  unfold tick
  dsimp only
  exact foldl_bulletStep_true _ _ _ _ _ _ h

/-- C6: once `exploded` is true, no sequence of further ticks — whatever
their inputs, with or without further impacts — ever resets it; later
impacts leave the flag simply true. -/
theorem c6_rupture_one_way (s : SimState) (inputs : List TickInput)
    (h : s.exploded = true) : (inputs.foldl tick s).exploded = true := by
  induction inputs generalizing s with
  | nil => exact h
  | cons i t ih =>
      rw [List.foldl_cons]
      exact ih _ (tick_preserves_exploded s i h)

/-- C6 witness: an exploded state stays exploded across a concrete tick. -/
theorem c6_witness :
    ((⟨[], [], true, true⟩ : SimState).exploded = true)
    ∧ (List.foldl tick (⟨[], [], true, true⟩ : SimState)
        [⟨1, 800, 600, none⟩]).exploded = true :=
  ⟨rfl, c6_rupture_one_way ⟨[], [], true, true⟩ [⟨1, 800, 600, none⟩] rfl⟩

/-- C9: on an initialized state, a tick through which the `exploded` flag
stays false leaves the particle field unchanged — gravity, the spring
solver and integration run only once ruptured. -/
theorem c9_rigid_before_rupture (s : SimState) (inp : TickInput)
    (hinit : s.initialized = true) (hex : (tick s inp).exploded = false) :
    (tick s inp).particles = s.particles := by
  simp only [tick, hinit] at hex ⊢
  simp only [if_true] at hex ⊢
  rw [hex]
  simp

/-- C9 witness: a concrete initialized, unexploded state with no click is
unchanged by a tick. -/
theorem c9_witness :
    ((⟨[Particle.new (0, 0)], [], false, true⟩ : SimState).initialized = true)
    ∧ ((tick ⟨[Particle.new (0, 0)], [], false, true⟩
        ⟨1, 800, 600, none⟩).exploded = false)
    ∧ (tick ⟨[Particle.new (0, 0)], [], false, true⟩
        ⟨1, 800, 600, none⟩).particles = [Particle.new (0, 0)] :=
  ⟨rfl, rfl,
   c9_rigid_before_rupture ⟨[Particle.new (0, 0)], [], false, true⟩
     ⟨1, 800, 600, none⟩ rfl rfl⟩

theorem foldl_bulletStep_fst (particles : List Particle) (dt W H : ℝ)
    (l : List Bullet) (acc : List Bullet × Bool) :
    (l.foldl (bulletStep particles dt W H) acc).1 =
      acc.1 ++ l.map (fun b => b.update dt W H) := by
  induction l generalizing acc with
  | nil => simp
  | cons b t ih =>
      rw [List.foldl_cons, ih]
      simp [bulletStep]

theorem Bullet_new_degenerate (o : Vec2) :
    Bullet.new o o =
      { position := o, velocity := 0, radius := 5, active := true } := by
  unfold Bullet.new normalize vlen
  simp

theorem degenerate_bullet_update (W H dt : ℝ) (hW : 0 ≤ W) (hH : 0 ≤ H) :
    Bullet.update
      { position := (W / 2, H), velocity := 0, radius := 5, active := true }
      dt W H =
      { position := (W / 2, H), velocity := 0, radius := 5, active := true } := by
  unfold Bullet.update
  dsimp only
  rw [smul_zero, add_zero]
  rw [if_neg]
  push_neg
  exact ⟨by linarith, by linarith, by linarith, le_refl H⟩

/-- C2 is violated by the code: a click exactly at the launch origin
`(W/2, H)` is not rejected.  `main` unconditionally pushes `Bullet::new`,
which normalizes the zero-length direction (NaN velocity in `f32`; the
zero vector under the exact model's `1/0 = 0` convention), and the
resulting projectile survives the tick inside the viewport — a projectile
IS created for a fire event whose origin equals its target. -/
theorem c2_degenerate_fire_creates_bullet (s : SimState) (inp : TickInput)
    (hW : 0 ≤ inp.width) (hH : 0 ≤ inp.height)
    (hclick : inp.click = some (inp.width / 2, inp.height)) :
    ({ position := (inp.width / 2, inp.height), velocity := 0, radius := 5,
        active := true } : Bullet) ∈ (tick s inp).bullets := by
  unfold tick
  dsimp only
  rw [hclick]
  dsimp only
  rw [foldl_bulletStep_fst, List.nil_append, List.mem_filter]
  constructor
  · rw [List.map_append]
    apply List.mem_append_right
    simp only [List.map_cons, List.map_nil]
    rw [Bullet_new_degenerate ((inp.width / 2, inp.height) : Vec2),
      degenerate_bullet_update inp.width inp.height inp.dt hW hH]
    exact List.mem_singleton_self _
  · rfl

/-- C2 witness: with an 800×600 viewport and a click exactly at the launch
origin `(400, 600)`, the tick's bullet list contains the degenerate
projectile. -/
theorem c2_witness :
    (0 : ℝ) ≤ 800 ∧ (0 : ℝ) ≤ 600 ∧
    ({ position := ((800 : ℝ) / 2, (600 : ℝ)), velocity := 0, radius := 5,
        active := true } : Bullet) ∈
      (tick ⟨[], [], false, true⟩ ⟨1, 800, 600, some (800 / 2, 600)⟩).bullets :=
  ⟨by norm_num, by norm_num,
   c2_degenerate_fire_creates_bullet ⟨[], [], false, true⟩
     ⟨1, 800, 600, some (800 / 2, 600)⟩ (by norm_num) (by norm_num) rfl⟩

theorem six_le_pointsInLayer (r : ℝ) : 6 ≤ pointsInLayer r := by
  unfold pointsInLayer
  calc (6 : ℕ) = ⌊(6 : ℝ)⌋₊ := by simp
  _ ≤ _ := Nat.floor_le_floor (le_max_right _ _)

theorem placeRing_length (center : Vec2) (layer_radius : ℝ) (pts room : ℕ) :
    (placeRing center layer_radius pts room).length = min room pts := by
  simp [placeRing]

theorem genLoop_extends_aux (center : Vec2) (count : ℕ) (radius : ℝ) :
    ∀ n r acc, count - acc.length ≤ n →
      ∃ t, genLoop center count radius r acc = acc ++ t := by
  intro n
  induction n with
  | zero =>
      intro r acc hle
      rw [genLoop, dif_neg (by omega)]
      exact ⟨[], (List.append_nil acc).symm⟩
  | succ n ih =>
      intro r acc hle
      rw [genLoop]
      by_cases h : acc.length < count
      · rw [dif_pos h]
        dsimp only
        by_cases hr : r + PARTICLE_RADIUS * 2 > radius
        · rw [if_pos hr]
          exact ⟨_, rfl⟩
        · rw [if_neg hr]
          have hmin : 1 ≤ min (count - acc.length) (pointsInLayer r) := by
            have := six_le_pointsInLayer r
            omega
          have hlen :
              (acc ++ placeRing center r (pointsInLayer r)
                (count - acc.length)).length =
              acc.length + min (count - acc.length) (pointsInLayer r) := by
            rw [List.length_append, placeRing_length]
          obtain ⟨t, ht⟩ := ih (r + PARTICLE_RADIUS * 2)
            (acc ++ placeRing center r (pointsInLayer r) (count - acc.length))
            (by omega)
          exact ⟨_, by rw [ht, List.append_assoc]⟩
      · rw [dif_neg h]
        exact ⟨[], (List.append_nil acc).symm⟩

theorem genLoop_extends (center : Vec2) (count : ℕ) (radius : ℝ) (r : ℝ)
    (acc : List Particle) :
    ∃ t, genLoop center count radius r acc = acc ++ t :=
  genLoop_extends_aux center count radius count r acc (Nat.sub_le _ _)

theorem genLoop_length_le (center : Vec2) (count : ℕ) (radius : ℝ) :
    ∀ n r acc, count - acc.length ≤ n → acc.length ≤ count →
      (genLoop center count radius r acc).length ≤ count := by
  intro n
  induction n with
  | zero =>
      intro r acc hle hlen
      rw [genLoop, dif_neg (by omega)]
      exact hlen
  | succ n ih =>
      intro r acc hle hlen
      rw [genLoop]
      by_cases h : acc.length < count
      · rw [dif_pos h]
        dsimp only
        have hmin : 1 ≤ min (count - acc.length) (pointsInLayer r) := by
          have := six_le_pointsInLayer r
          omega
        have hlen' :
            (acc ++ placeRing center r (pointsInLayer r)
              (count - acc.length)).length =
            acc.length + min (count - acc.length) (pointsInLayer r) := by
          rw [List.length_append, placeRing_length]
        by_cases hr : r + PARTICLE_RADIUS * 2 > radius
        · rw [if_pos hr]
          omega
        · rw [if_neg hr]
          exact ih (r + PARTICLE_RADIUS * 2) _ (by omega) (by omega)
      · rw [dif_neg h]
        exact hlen

theorem genLoop_reaches (center : Vec2) (count : ℕ) (radius : ℝ) :
    ∀ n r acc, count - acc.length ≤ n → acc.length ≤ count →
      r + ((count - acc.length : ℕ) : ℝ) * (PARTICLE_RADIUS * 2) ≤
        radius + PARTICLE_RADIUS * 2 →
      (genLoop center count radius r acc).length = count := by
  have hp6 : PARTICLE_RADIUS * 2 = (6 : ℝ) := by
    unfold PARTICLE_RADIUS
    norm_num
  intro n
  induction n with
  | zero =>
      intro r acc hle hlen hbound
      rw [genLoop, dif_neg (by omega)]
      omega
  | succ n ih =>
      intro r acc hle hlen hbound
      rw [genLoop]
      by_cases h : acc.length < count
      · rw [dif_pos h]
        dsimp only
        have hpts := six_le_pointsInLayer r
        have hlen' :
            (acc ++ placeRing center r (pointsInLayer r)
              (count - acc.length)).length =
            acc.length + min (count - acc.length) (pointsInLayer r) := by
          rw [List.length_append, placeRing_length]
        by_cases hr : r + PARTICLE_RADIUS * 2 > radius
        · rw [if_pos hr]
          -- the break fires only on the last ring: count - acc.length = 1
          have hone : count - acc.length = 1 := by
            by_contra hne
            have h2 : 2 ≤ count - acc.length := by omega
            have h2r : (2 : ℝ) ≤ ((count - acc.length : ℕ) : ℝ) := by
              exact_mod_cast h2
            rw [hp6] at hbound hr
            nlinarith
          rw [hlen']
          omega
        · rw [if_neg hr]
          apply ih (r + PARTICLE_RADIUS * 2) _ (by omega) (by omega)
          rw [hlen']
          have hsub : count - (acc.length +
              min (count - acc.length) (pointsInLayer r)) + 1 ≤
              count - acc.length := by omega
          have hsubr : ((count - (acc.length +
              min (count - acc.length) (pointsInLayer r)) : ℕ) : ℝ) + 1 ≤
              ((count - acc.length : ℕ) : ℝ) := by
            exact_mod_cast hsub
          rw [hp6] at hbound ⊢
          nlinarith
      · rw [dif_neg h]
        omega

/-- C7: for every `center`, `count` and `radius` the generated field has at
most `count` particles (fewer is an accepted outcome), and whenever the
target radius is large enough to fit all the rings
(`count · ring pitch ≤ radius + ring pitch`), generation stops exactly at
`count` particles. -/
theorem c7_generation_bound (center : Vec2) (count : ℕ) (radius : ℝ) :
    (generate_spherical_particles center count radius).length ≤ count
    ∧ ((count : ℝ) * (PARTICLE_RADIUS * 2) ≤ radius + PARTICLE_RADIUS * 2 →
        (generate_spherical_particles center count radius).length = count) := by
  constructor
  · exact genLoop_length_le center count radius count 0 [] (by simp) (by simp)
  · intro hbig
    apply genLoop_reaches center count radius count 0 [] (by simp) (by simp)
    simpa using hbig

/-- C7 witness: `count = 2`, `radius = 12` fits both particles, and the
bound `len ≤ count` holds there. -/
theorem c7_witness :
    ((2 : ℝ) * (PARTICLE_RADIUS * 2) ≤ 12 + PARTICLE_RADIUS * 2)
    ∧ (generate_spherical_particles ((0 : ℝ), (0 : ℝ)) 2 12).length ≤ 2
    ∧ (generate_spherical_particles ((0 : ℝ), (0 : ℝ)) 2 12).length = 2 := by
  have hfit : (2 : ℝ) * (PARTICLE_RADIUS * 2) ≤ 12 + PARTICLE_RADIUS * 2 := by
    unfold PARTICLE_RADIUS
    norm_num
  exact ⟨hfit, (c7_generation_bound ((0 : ℝ), (0 : ℝ)) 2 12).1,
    (c7_generation_bound ((0 : ℝ), (0 : ℝ)) 2 12).2 (by exact_mod_cast hfit)⟩

theorem ringParticle_zero_radius (center : Vec2) (p i : ℕ) :
    (ringParticle center 0 p i).position = center := by
  unfold ringParticle Particle.new
  dsimp only
  simp [Prod.ext_iff]

theorem placeRing_position_getElem? (center : Vec2) (p room i : ℕ)
    (hip : i < p) (hir : i < room) :
    ((placeRing center 0 p room).map Particle.position)[i]? = some center := by
  unfold placeRing
  rw [List.getElem?_map, List.getElem?_map, List.getElem?_take]
  rw [if_pos hir, List.getElem?_range hip]
  simp [ringParticle_zero_radius]

theorem gen_first_two_center (center : Vec2) (count : ℕ) (radius : ℝ)
    (h2 : 2 ≤ count) :
    ((generate_spherical_particles center count radius).map
      Particle.position)[0]? = some center
    ∧ ((generate_spherical_particles center count radius).map
      Particle.position)[1]? = some center := by
  have hpts := six_le_pointsInLayer 0
  obtain ⟨t, ht⟩ : ∃ t, generate_spherical_particles center count radius =
      placeRing center 0 (pointsInLayer 0) count ++ t := by
    unfold generate_spherical_particles
    rw [genLoop, dif_pos (by simpa using by omega : ([] : List Particle).length < count)]
    dsimp only
    simp only [List.nil_append, List.length_nil, Nat.sub_zero]
    by_cases hr : (0 : ℝ) + PARTICLE_RADIUS * 2 > radius
    · rw [if_pos hr]
      exact ⟨[], (List.append_nil _).symm⟩
    · rw [if_neg hr]
      exact genLoop_extends center count radius _ _
  have hlen : 2 ≤ (placeRing center 0 (pointsInLayer 0) count).length := by
    rw [placeRing_length]
    omega
  rw [ht]
  constructor
  · rw [List.map_append, List.getElem?_append]
    rw [if_pos (by rw [List.length_map]; omega)]
    exact placeRing_position_getElem? center (pointsInLayer 0) count 0
      (by omega) (by omega)
  · rw [List.map_append, List.getElem?_append]
    rw [if_pos (by rw [List.length_map]; omega)]
    exact placeRing_position_getElem? center (pointsInLayer 0) count 1
      (by omega) (by omega)

/-- C1 as amended: for every center, every `count ≥ 2` and every radius,
the generated field DOES contain two particles with identical positions —
the radius-0 first ring receives `min(count, 6)` particles that all sit
exactly at the center (the `max(…, 6)` floor is applied to the zero-radius
ring too); the no-coincidence invariant holds only for `count ≤ 1`. -/
theorem c1_center_ring_coincident (center : Vec2) (count : ℕ) (radius : ℝ)
    (h2 : 2 ≤ count) :
    ((generate_spherical_particles center count radius).map
      Particle.position)[0]? = some center
    ∧ ((generate_spherical_particles center count radius).map
      Particle.position)[1]? = some center :=
  gen_first_two_center center count radius h2

/-- C1 counterexample: with center `(0,0)`, `count = 10`, `radius = 60`,
the particles at the distinct indices 0 and 1 have identical positions, so
the field is NOT free of coincident particles. -/
theorem c1_counterexample :
    ((generate_spherical_particles ((0 : ℝ), (0 : ℝ)) 10 60).map
      Particle.position)[0]? = some ((0 : ℝ), (0 : ℝ))
    ∧ ((generate_spherical_particles ((0 : ℝ), (0 : ℝ)) 10 60).map
      Particle.position)[1]? = some ((0 : ℝ), (0 : ℝ)) :=
  gen_first_two_center ((0 : ℝ), (0 : ℝ)) 10 60 (by norm_num)

/-- C1 witness: the amended statement instantiated at center `(1, 2)`,
`count = 6`, `radius = 0`. -/
theorem c1_witness :
    2 ≤ 6
    ∧ (((generate_spherical_particles ((1 : ℝ), (2 : ℝ)) 6 0).map
        Particle.position)[0]? = some ((1 : ℝ), (2 : ℝ))
      ∧ ((generate_spherical_particles ((1 : ℝ), (2 : ℝ)) 6 0).map
        Particle.position)[1]? = some ((1 : ℝ), (2 : ℝ))) :=
  ⟨by norm_num, c1_center_ring_coincident ((1 : ℝ), (2 : ℝ)) 6 0 (by norm_num)⟩

end WaterBalloon
